import Mathlib

/-!
Shallow embedding of pkg/commands/oscommands/os.go (lazygit).

The functions modelled here are PipeCommands, AppendLineToFile, FileExists,
PasteFromClipboard and the CopyToClipboardCmd-based branch they share.
External effects (process start, stderr reads, waits, stat, clipboard
reads) are passed in as explicit data, so every definition is executable.
-/

namespace LazygitOs

/-- Observable behavior of one pipeline stage's exec.Cmd, as PipeCommands
sees it: the display string used for logging, whether StdoutPipe succeeds
in the wiring loop, whether Start succeeds, the outcome of reading the
stage's stderr to completion (none models a read error), and whether Wait
succeeds. -/
structure Stage where
  displayStr : String
  stdoutPipeOk : Bool
  startOk : Bool
  stderrRead : Option String
  waitOk : Bool
deriving DecidableEq

/-- Events observable during a run of PipeCommands: the single log record
sent to the observer, the stdout-to-stdin wiring of adjacent stages, and
for each stage's goroutine its start, the completion of its stderr read
(the point where it may append to finalErrors), and the completion of its
wait. -/
inductive Ev where
  | log (cmdStr : String) (commandLine : Bool)
  | wire (src dst : Nat)
  | start (i : Nat)
  | readEnd (i : Nat)
  | waitEnd (i : Nat)
deriving DecidableEq

/-- What a stage's stdin is connected to after the wiring loop. -/
inductive StdinSrc where
  | inherited
  | pipeFromStdoutOf (i : Nat)
deriving DecidableEq

/-- What a stage's stdout is connected to after the wiring loop. -/
inductive StdoutDst where
  | inherited
  | pipeToStdinOf (i : Nat)
deriving DecidableEq

/-- The stdin and stdout connections of every stage. -/
structure Wiring where
  stdin : List StdinSrc
  stdout : List StdoutDst
deriving DecidableEq

/-- One iteration of the wiring loop in PipeCommands: stdout of stage i is
taken as a pipe (StdoutPipe) and assigned to the stdin of stage i+1. -/
def wireStep (w : Wiring) (i : Nat) : Wiring :=
  { stdin := w.stdin.set (i + 1) (StdinSrc.pipeFromStdoutOf i)
    stdout := w.stdout.set i (StdoutDst.pipeToStdinOf (i + 1)) }

/-- Before the wiring loop every stage's stdin and stdout are at their
default inherited settings. -/
def initWiring (n : Nat) : Wiring :=
  { stdin := List.replicate n StdinSrc.inherited
    stdout := List.replicate n StdoutDst.inherited }

/-- The wiring loop of PipeCommands: for i in range(len(cmds)-1), connect
stage i's stdout to stage i+1's stdin. -/
def wirePipeline (n : Nat) : Wiring :=
  (List.range (n - 1)).foldl wireStep (initWiring n)

/-- The wiring loop stopped after k iterations. -/
def wireFold (n k : Nat) : Wiring :=
  (List.range k).foldl wireStep (initWiring n)

/-- The events emitted by stage i's goroutine, in their fixed program
order: Start, then the completed ReadAll of stderr, then Wait. -/
def unitEvents (i : Nat) : List Ev :=
  [Ev.start i, Ev.readEnd i, Ev.waitEnd i]

/-- Interleaving of the per-stage goroutines: pend holds the events each
goroutine has not yet emitted, and each entry of sched names the goroutine
that takes the next step; an index with no remaining events (or out of
range) contributes nothing. -/
def runSched {α : Type} : List (List α) → List Nat → List α
  | _, [] => []
  | pend, i :: rest =>
    match pend.get? i with
    | some (e :: es) => e :: runSched (pend.set i es) rest
    | _ => runSched pend rest

/-- The string stage appends to finalErrors at its readEnd step: the code
appends string(b) exactly when io.ReadAll(stderr) returned no error and
len(b) > 0. -/
def stageAppend (st : Stage) : Option String :=
  match st.stderrRead with
  | some b => if 0 < b.length then some b else none
  | none => none

/-- The finalErrors contribution of one trace event. -/
def appendAt (stages : List Stage) : Ev → Option String
  | Ev.readEnd i => (stages.get? i).bind stageAppend
  | _ => none

/-- Whether cmds[i].StdoutPipe() succeeds in the wiring loop (indices past
the end never fail, they are never reached). -/
def stdoutPipeOkAt (stages : List Stage) (i : Nat) : Bool :=
  match stages.get? i with
  | some st => st.stdoutPipeOk
  | none => true

/-- The first index at which the wiring loop's StdoutPipe call fails, if
any; the loop returns that error early. -/
def firstWireFailure (stages : List Stage) : Option Nat :=
  (List.range (stages.length - 1)).find? (fun i => ! stdoutPipeOkAt stages i)

/-- The log string for the whole pipeline: each stage's ToString joined by
a pipe separator, as in strings.Join(..., " | "). -/
def pipelineLogStr (stages : List Stage) : String :=
  String.intercalate " | " (stages.map Stage.displayStr)

/-- The event trace of one run of PipeCommands under a given goroutine
interleaving: the log record is emitted first, then the wiring events (all
of them, or those before an early StdoutPipe failure), then the
interleaved goroutine events. -/
def pipeTrace (stages : List Stage) (sched : List Nat) : List Ev :=
  Ev.log (pipelineLogStr stages) true ::
    match firstWireFailure stages with
    | some i => (List.range i).map (fun j => Ev.wire j (j + 1))
    | none =>
      (List.range (stages.length - 1)).map (fun j => Ev.wire j (j + 1))
        ++ runSched ((List.range stages.length).map unitEvents) sched

/-- The finalErrors slice at the end of the run: the appends performed, in
trace order. -/
def pipeFinalErrors (stages : List Stage) (sched : List Nat) : List String :=
  (pipeTrace stages sched).filterMap (appendAt stages)

/-- The error value PipeCommands returns: an early StdoutPipe error from
the wiring loop, or the aggregate errors.New(strings.Join(finalErrors,
newline)) when finalErrors is non-empty, else nil. -/
inductive PipeErr where
  | stdoutPipeFailed (i : Nat)
  | aggregate (msg : String)
deriving DecidableEq

/-- PipeCommands: after the log record and the wiring loop (which may
return early), run all stage goroutines, wait for them, and return the
aggregate error exactly when finalErrors is non-empty. -/
def pipeCommands (stages : List Stage) (sched : List Nat) : Option PipeErr :=
  match firstWireFailure stages with
  | some i => some (PipeErr.stdoutPipeFailed i)
  | none =>
    let finalErrors := pipeFinalErrors stages sched
    if 0 < finalErrors.length then
      some (PipeErr.aggregate (String.intercalate "\n" finalErrors))
    else none

/-- The non-empty stderr blocks in stage order, one per producing stage. -/
def stageOrderedErrors (stages : List Stage) : List String :=
  stages.filterMap stageAppend

/-- The Go `finalErrors = append(finalErrors, x)` statement refined into
its two racy halves: the goroutine first reads the shared slice header,
then writes back the extended slice. With no mutex around the append,
these halves of different goroutines may interleave. -/
inductive RaceStep where
  | readShared (i : Nat)
  | writeShared (i : Nat)
deriving DecidableEq

/-- State of the unsynchronized append race: the shared finalErrors slice
and each goroutine's private snapshot of it. -/
structure RaceState where
  shared : List String
  snap : List (Option (List String))
deriving DecidableEq

/-- One step of the unsynchronized append: goroutine i either snapshots
the shared slice or writes back its snapshot extended with its own stderr
value. -/
def raceStep (vals : List String) (s : RaceState) : RaceStep → RaceState
  | RaceStep.readShared i => { s with snap := s.snap.set i (some s.shared) }
  | RaceStep.writeShared i =>
    match s.snap.get? i, vals.get? i with
    | some (some l), some v => { s with shared := l ++ [v] }
    | _, _ => s

/-- The shared finalErrors slice after the given interleaving of the
goroutines' unsynchronized read and write halves; vals lists the stderr
text each goroutine appends. -/
def raceRun (vals : List String) (steps : List RaceStep) : List String :=
  (steps.foldl (raceStep vals) { shared := [], snap := List.replicate vals.length none }).shared

/-- AppendLineToFile success path, on the file's contents: OpenFile with
O_APPEND and O_CREATE makes an absent file empty; if the size is positive
the last byte is read and a newline is appended first when that byte is
not a newline; then line plus a newline is appended. The last byte of the
UTF-8 contents is a newline byte exactly when the last character is the
newline character, so the byte test is modelled with String.back. -/
def appendLineToFile (file : Option String) (line : String) : String :=
  let contents := file.getD ""
  let contents :=
    if 0 < contents.length then
      if contents.back = '\n' then contents else contents ++ "\n"
    else contents
  contents ++ (line ++ "\n")

/-- A Go error value as FileExists inspects it: its message and whether
os.IsNotExist holds of it. -/
structure GoError where
  msg : String
  notExistErr : Bool
deriving DecidableEq

/-- FileExists, on the outcome of os.Stat (none models a nil error): a
not-exist failure gives (false, nil), any other failure gives (false,
err), success gives (true, nil). -/
def fileExists (statResult : Option GoError) : Bool × Option GoError :=
  match statResult with
  | some err => if err.notExistErr then (false, none) else (false, some err)
  | none => (true, none)

/-- The user OS config fields PasteFromClipboard consults. -/
structure OSUserConfig where
  copyToClipboardCmd : String
  readFromClipboardCmd : String
  shellFunctionsFile : String
deriving DecidableEq

/-- strings.ReplaceAll(s, crlf, lf) on the character list: left-to-right,
non-overlapping replacement of each carriage-return-linefeed pair by a
single linefeed. -/
def replaceCRLF : List Char → List Char
  | [] => []
  | [c] => [c]
  | c1 :: c2 :: rest =>
    if c1 = '\r' ∧ c2 = '\n' then '\n' :: replaceCRLF rest
    else c1 :: replaceCRLF (c2 :: rest)

/-- strings.ReplaceAll on strings. -/
def replaceCRLFStr (s : String) : String :=
  String.mk (replaceCRLF s.data)

/-- The raw clipboard read of PasteFromClipboard: when CopyToClipboardCmd
is non-empty, ReadFromClipboardCmd is run through the shell (with the
shell functions file) and its output captured; otherwise the OS-native
clipboard is read. The pair is Go's (string, error) with none for a nil
error. -/
def rawClipboardRead (cfg : OSUserConfig)
    (runShellWithOutput : String → String → String × Option String)
    (clipboardReadAll : String × Option String) : String × Option String :=
  if cfg.copyToClipboardCmd ≠ "" then
    runShellWithOutput cfg.readFromClipboardCmd cfg.shellFunctionsFile
  else
    clipboardReadAll

/-- The tail of PasteFromClipboard: on a read error return the empty
string and the error, otherwise return the text with CRLF normalized. -/
def normalizeResult : String × Option String → String × Option String
  | (_, some e) => ("", some e)
  | (s, none) => (replaceCRLFStr s, none)

/-- PasteFromClipboard. -/
def pasteFromClipboard (cfg : OSUserConfig)
    (runShellWithOutput : String → String → String × Option String)
    (clipboardReadAll : String × Option String) : String × Option String :=
  normalizeResult (rawClipboardRead cfg runShellWithOutput clipboardReadAll)

/-- A stage that starts, writes the text e0 to stderr and exits cleanly. -/
def stageE0 : Stage :=
  { displayStr := "cat file", stdoutPipeOk := true, startOk := true,
    stderrRead := some "e0", waitOk := true }

/-- A stage that starts, writes the text e1 to stderr and exits cleanly. -/
def stageE1 : Stage :=
  { displayStr := "sort", stdoutPipeOk := true, startOk := true,
    stderrRead := some "e1", waitOk := true }

/-- A stage whose process exits non-zero (its wait fails) while its stderr
stays empty, as grep does on no match. -/
def stageWaitFail : Stage :=
  { displayStr := "grep pattern file", stdoutPipeOk := true, startOk := true,
    stderrRead := some "", waitOk := false }

/-- A stage that writes the text boom to stderr and exits cleanly. -/
def stageBoom : Stage :=
  { displayStr := "git log", stdoutPipeOk := true, startOk := true,
    stderrRead := some "boom", waitOk := true }

/-- A config with no external copy command but a configured read command. -/
def cfgNativeRead : OSUserConfig :=
  { copyToClipboardCmd := "", readFromClipboardCmd := "xclip -o",
    shellFunctionsFile := "" }

/-- A config with an external copy command and an empty read command. -/
def cfgShellRead : OSUserConfig :=
  { copyToClipboardCmd := "pbcopy", readFromClipboardCmd := "",
    shellFunctionsFile := "" }

/-- A stub shell runner used to instantiate the clipboard theorems. -/
def shellRunStub : String → String → String × Option String :=
  fun _ _ => ("shell output", none)

/-! Helper lemmas. -/

theorem string_pos_iff_ne (s : String) : 0 < s.length ↔ s ≠ "" := by
  obtain ⟨l⟩ := s
  simp [String.length, String.ext_iff]
  exact List.length_pos

theorem runSched_nil_pend {α : Type} (sched : List Nat) :
    runSched ([] : List (List α)) sched = [] := by
  induction sched with
  | nil => rfl
  | cons i rest ih => simp [runSched, ih]

theorem runSched_mem {α : Type} :
    ∀ (sched : List Nat) (pend : List (List α)) (e : α),
      e ∈ runSched pend sched → ∃ l ∈ pend, e ∈ l := by
  intro sched
  induction sched with
  | nil => intro pend e h; simp [runSched] at h
  | cons i rest ih =>
    intro pend e h
    cases hp : pend.get? i with
    | none =>
      simp only [runSched, hp] at h
      exact ih pend e h
    | some l =>
      cases l with
      | nil =>
        simp only [runSched, hp] at h
        exact ih pend e h
      | cons e0 es =>
        simp only [runSched, hp] at h
        rcases List.mem_cons.mp h with he | h2
        · exact ⟨e0 :: es, List.get?_mem hp, he ▸ List.mem_cons_self _ _⟩
        · obtain ⟨l, hl, hel⟩ := ih _ e h2
          rcases List.mem_or_eq_of_mem_set hl with hl2 | heq
          · exact ⟨l, hl2, hel⟩
          · exact ⟨e0 :: es, List.get?_mem hp, List.mem_cons_of_mem _ (heq ▸ hel)⟩

theorem flatten_set_perm {α : Type} :
    ∀ (pend : List (List α)) (i : Nat) (e : α) (es : List α),
      pend.get? i = some (e :: es) →
      pend.flatten.Perm (e :: (pend.set i es).flatten) := by
  intro pend
  induction pend with
  | nil => intro i e es h; simp at h
  | cons hd tl ih =>
    intro i e es h
    cases i with
    | zero =>
      have h2 : hd = e :: es := by simpa using h
      subst h2
      simp only [List.set_cons_zero, List.flatten_cons, List.cons_append]
      exact List.Perm.refl _
    | succ n =>
      have h2 := ih n e es (by simpa using h)
      simp only [List.set_cons_succ, List.flatten_cons]
      exact List.Perm.trans (List.Perm.append_left hd h2) List.perm_middle

theorem runSched_perm {α : Type} :
    ∀ (sched : List Nat) (pend : List (List α)),
      (∀ i l, pend.get? i = some l → l.length ≤ sched.count i) →
      (runSched pend sched).Perm pend.flatten := by
  intro sched
  induction sched with
  | nil =>
    intro pend h
    have hnil : pend.flatten = [] := by
      rw [List.flatten_eq_nil_iff]
      intro l hl
      obtain ⟨i, hi⟩ := List.get?_of_mem hl
      have hc := h i l hi
      simp only [List.count_nil, Nat.le_zero] at hc
      exact List.length_eq_zero.mp hc
    rw [hnil]
    rfl
  | cons i rest ih =>
    intro pend h
    cases hp : pend.get? i with
    | none =>
      have hi : pend.length ≤ i := List.get?_eq_none.mp hp
      simp only [runSched, hp]
      apply ih
      intro j l hj
      have hji : j ≠ i := by
        intro hji
        subst hji
        rw [hp] at hj
        cases hj
      have hc := h j l hj
      rwa [List.count_cons, if_neg (by simp [Ne.symm hji]), Nat.add_zero] at hc
    | some l =>
      cases l with
      | nil =>
        simp only [runSched, hp]
        apply ih
        intro j l hj
        by_cases hji : j = i
        · subst hji
          rw [hp] at hj
          injection hj with hj
          subst hj
          simp
        · have hc := h j l hj
          rwa [List.count_cons, if_neg (by simp [Ne.symm hji]), Nat.add_zero] at hc
      | cons e es =>
        simp only [runSched, hp]
        have hlen : i < pend.length := by
          rcases List.get?_eq_some.mp hp with ⟨hw, _⟩
          exact hw
        have hcond : ∀ j l, (pend.set i es).get? j = some l → l.length ≤ rest.count j := by
          intro j l hj
          by_cases hji : j = i
          · subst hji
            rw [List.get?_eq_getElem?, List.getElem?_set, if_pos rfl, if_pos hlen] at hj
            injection hj with hj
            subst hj
            have hc := h j (e :: es) hp
            rw [List.count_cons_self] at hc
            simpa using Nat.le_of_succ_le_succ (by simpa using hc)
          · rw [List.get?_eq_getElem?, List.getElem?_set, if_neg (Ne.symm hji),
              ← List.get?_eq_getElem?] at hj
            have hc := h j l hj
            rwa [List.count_cons, if_neg (by simp [Ne.symm hji]), Nat.add_zero] at hc
        exact List.Perm.trans (List.Perm.cons e (ih (pend.set i es) hcond))
          (flatten_set_perm pend i e es hp).symm

theorem filterMap_unitEvents (stages : List Stage) (i : Nat) :
    (unitEvents i).filterMap (appendAt stages)
      = ((stages.get? i).bind stageAppend).toList := by
  cases h : (stages.get? i).bind stageAppend with
  | none =>
    rw [List.get?_eq_getElem?] at h
    simp [unitEvents, appendAt, List.filterMap_cons, h]
  | some v =>
    rw [List.get?_eq_getElem?] at h
    simp [unitEvents, appendAt, List.filterMap_cons, h]

theorem flatten_map_toList {α β : Type} (g : α → Option β) :
    ∀ l : List α, (l.map (fun a => (g a).toList)).flatten = l.filterMap g := by
  intro l
  induction l with
  | nil => rfl
  | cons hd tl ih =>
    cases h : g hd with
    | none => simp [List.filterMap_cons, h, ih]
    | some v => simp [List.filterMap_cons, h, ih]

theorem range_filterMap_get {α β : Type} (f : α → Option β) :
    ∀ l : List α,
      (List.range l.length).filterMap (fun i => (l.get? i).bind f) = l.filterMap f := by
  intro l
  induction l with
  | nil => rfl
  | cons hd tl ih =>
    rw [List.length_cons, List.range_succ_eq_map, List.filterMap_cons, List.filterMap_map]
    have hcomp : ((fun i => ((hd :: tl).get? i).bind f) ∘ Nat.succ)
        = fun j => (tl.get? j).bind f := by
      funext j
      rfl
    rw [hcomp, ih]
    cases h : f hd with
    | none => simp [List.filterMap_cons, h]
    | some v => simp [List.filterMap_cons, h]

theorem flatten_units_filterMap (stages : List Stage) :
    (((List.range stages.length).map unitEvents).flatten).filterMap (appendAt stages)
      = stageOrderedErrors stages := by
  rw [List.filterMap_flatten, List.map_map]
  have hfun : List.filterMap (appendAt stages) ∘ unitEvents
      = fun i => ((stages.get? i).bind stageAppend).toList := by
    funext i
    exact filterMap_unitEvents stages i
  rw [hfun, flatten_map_toList (fun i => (stages.get? i).bind stageAppend)]
  have hlen : (List.range stages.length).filterMap (fun i => (stages.get? i).bind stageAppend)
      = stages.filterMap stageAppend := range_filterMap_get stageAppend stages
  rw [hlen]
  rfl

theorem pipeFinalErrors_perm (stages : List Stage) (sched : List Nat)
    (hwire : firstWireFailure stages = none)
    (hsched : ∀ i ∈ List.range stages.length, 3 ≤ sched.count i) :
    (pipeFinalErrors stages sched).Perm (stageOrderedErrors stages) := by
  unfold pipeFinalErrors pipeTrace
  rw [hwire, List.filterMap_cons]
  have hlog : appendAt stages (Ev.log (pipelineLogStr stages) true) = none := rfl
  rw [hlog, List.filterMap_append]
  have hwires : List.filterMap (appendAt stages)
      ((List.range (stages.length - 1)).map (fun j => Ev.wire j (j + 1))) = [] := by
    rw [List.filterMap_map]
    apply List.filterMap_eq_nil_iff.mpr
    intro a _
    rfl
  rw [hwires, List.nil_append]
  have hcond : ∀ i l, ((List.range stages.length).map unitEvents).get? i = some l →
      l.length ≤ sched.count i := by
    intro i l hl
    rw [List.get?_map] at hl
    cases hr : (List.range stages.length).get? i with
    | none => rw [hr] at hl; cases hl
    | some j =>
      rw [hr] at hl
      have hi : i < stages.length := by
        rcases List.get?_eq_some.mp hr with ⟨hw, _⟩
        simpa using hw
      rw [List.get?_range hi] at hr
      injection hr with hr
      injection hl with hl
      subst hr
      subst hl
      simpa [unitEvents] using hsched i (List.mem_range.mpr hi)
  exact List.Perm.trans
    (List.Perm.filterMap (appendAt stages)
      (runSched_perm sched ((List.range stages.length).map unitEvents) hcond))
    (Eq.symm (flatten_units_filterMap stages) ▸ List.Perm.refl _)

theorem stageAppend_ne_none_iff (st : Stage) :
    stageAppend st ≠ none ↔ ∃ b, st.stderrRead = some b ∧ b ≠ "" := by
  unfold stageAppend
  cases h : st.stderrRead with
  | none => simp
  | some b =>
    by_cases hb : 0 < b.length
    · have hbne := (string_pos_iff_ne b).mp hb
      simp [hb, hbne]
    · have hbe : b = "" := by
        by_contra hne
        exact hb ((string_pos_iff_ne b).mpr hne)
      subst hbe
      simp [hb]

theorem replaceCRLF_no_cr : ∀ l : List Char, '\r' ∉ l → replaceCRLF l = l
  | [], _ => rfl
  | [_], _ => rfl
  | c1 :: c2 :: rest, h => by
    have h1 : c1 ≠ '\r' := fun hc => h (hc ▸ List.mem_cons_self _ _)
    have h2 : '\r' ∉ c2 :: rest := fun hm => h (List.mem_cons_of_mem _ hm)
    rw [replaceCRLF, if_neg (fun hand => h1 hand.1)]
    rw [replaceCRLF_no_cr (c2 :: rest) h2]

theorem wirePipeline_eq_fold (n : Nat) : wirePipeline n = wireFold n (n - 1) := rfl

theorem wireFold_succ (n k : Nat) : wireFold n (k + 1) = wireStep (wireFold n k) k := by
  unfold wireFold
  rw [List.range_succ, List.foldl_append]
  rfl

theorem wireFold_stdin_length (n k : Nat) : (wireFold n k).stdin.length = n := by
  induction k with
  | zero => simp [wireFold, initWiring]
  | succ k ih => rw [wireFold_succ]; simp [wireStep, ih]

theorem wireFold_stdout_length (n k : Nat) : (wireFold n k).stdout.length = n := by
  induction k with
  | zero => simp [wireFold, initWiring]
  | succ k ih => rw [wireFold_succ]; simp [wireStep, ih]

theorem wireFold_stdin_get (n : Nat) :
    ∀ k, k < n → ∀ j, (wireFold n k).stdin.get? j =
      if j < n then
        (if 1 ≤ j ∧ j ≤ k then some (StdinSrc.pipeFromStdoutOf (j - 1))
         else some StdinSrc.inherited)
      else none := by
  intro k
  induction k with
  | zero =>
    intro _ j
    have h0 : ¬(1 ≤ j ∧ j = 0) := by omega
    simp [wireFold, initWiring, List.get?_eq_getElem?, List.getElem?_replicate, h0]
  | succ k ih =>
    intro hk j
    have hk' : k < n := by omega
    rw [wireFold_succ]
    show ((wireFold n k).stdin.set (k + 1) (StdinSrc.pipeFromStdoutOf k)).get? j = _
    rw [List.get?_eq_getElem?, List.getElem?_set, wireFold_stdin_length]
    by_cases hj : k + 1 = j
    · subst hj
      have hjn : k + 1 < n := hk
      have h1 : 1 ≤ k + 1 ∧ k + 1 ≤ k + 1 := by omega
      simp [hjn, h1]
    · rw [if_neg hj, ← List.get?_eq_getElem?, ih hk' j]
      by_cases hjn : j < n
      · by_cases hcase : 1 ≤ j ∧ j ≤ k
        · have hcase2 : 1 ≤ j ∧ j ≤ k + 1 := by omega
          simp [hjn, hcase, hcase2]
        · have hcase2 : ¬(1 ≤ j ∧ j ≤ k + 1) := by omega
          simp [hjn, hcase, hcase2]
      · simp [hjn]

theorem wireFold_stdout_get (n : Nat) :
    ∀ k, k < n → ∀ j, (wireFold n k).stdout.get? j =
      if j < n then
        (if j < k then some (StdoutDst.pipeToStdinOf (j + 1))
         else some StdoutDst.inherited)
      else none := by
  intro k
  induction k with
  | zero =>
    intro _ j
    simp [wireFold, initWiring, List.get?_eq_getElem?, List.getElem?_replicate]
  | succ k ih =>
    intro hk j
    have hk' : k < n := by omega
    rw [wireFold_succ]
    show ((wireFold n k).stdout.set k (StdoutDst.pipeToStdinOf (k + 1))).get? j = _
    rw [List.get?_eq_getElem?, List.getElem?_set, wireFold_stdout_length]
    by_cases hj : k = j
    · subst hj
      have hjn : k < n := hk'
      have h1 : k < k + 1 := by omega
      simp [hjn, h1]
    · rw [if_neg hj, ← List.get?_eq_getElem?, ih hk' j]
      by_cases hjn : j < n
      · by_cases hcase : j < k
        · have hcase2 : j < k + 1 := by omega
          simp [hjn, hcase, hcase2]
        · have hcase2 : ¬(j < k + 1) := by omega
          simp [hjn, hcase, hcase2]
      · simp [hjn]

/-! Claim theorems. -/

/-- C1, corrected: with every StdoutPipe call succeeding and a schedule
that lets every stage goroutine run to completion, PipeCommands returns a
non-nil error if and only if some stage's stderr was read successfully
and was non-empty; a failed wait alone does not produce an error, it is
only logged. -/
theorem pipeCommands_fails_iff_nonempty_stderr (stages : List Stage) (sched : List Nat)
    (hwire : firstWireFailure stages = none)
    (hsched : ∀ i ∈ List.range stages.length, 3 ≤ sched.count i) :
    pipeCommands stages sched ≠ none ↔
      ∃ st ∈ stages, ∃ b, st.stderrRead = some b ∧ b ≠ "" := by
  have hperm := pipeFinalErrors_perm stages sched hwire hsched
  have hiff : 0 < (pipeFinalErrors stages sched).length ↔
      ∃ st ∈ stages, stageAppend st ≠ none := by
    rw [List.length_pos]
    constructor
    · intro hne
      by_contra hnot
      push_neg at hnot
      have hso : stageOrderedErrors stages = [] := by
        apply List.filterMap_eq_nil_iff.mpr
        intro st hst
        exact hnot st hst
      rw [hso] at hperm
      exact hne hperm.eq_nil
    · rintro ⟨st, hst, hne⟩ h0
      rw [h0] at hperm
      exact hne (List.filterMap_eq_nil_iff.mp hperm.symm.eq_nil st hst)
  have hnone : pipeCommands stages sched = none ↔
      ¬ 0 < (pipeFinalErrors stages sched).length := by
    by_cases hpos : 0 < (pipeFinalErrors stages sched).length
    · simp [pipeCommands, hwire, hpos]
    · simp [pipeCommands, hwire, hpos]
  rw [Ne, hnone, not_not, hiff]
  constructor
  · rintro ⟨st, hst, hne⟩
    exact ⟨st, hst, (stageAppend_ne_none_iff st).mp hne⟩
  · rintro ⟨st, hst, b, hb, hbe⟩
    exact ⟨st, hst, (stageAppend_ne_none_iff st).mpr ⟨b, hb, hbe⟩⟩

/-- Witness for C1's theorem: a one-stage pipeline whose stderr is the
non-empty text boom, run under the schedule 0 0 0. -/
theorem pipeCommands_fails_iff_nonempty_stderr_witness :
    firstWireFailure [stageBoom] = none
    ∧ (∀ i ∈ List.range ([stageBoom] : List Stage).length, 3 ≤ ([0, 0, 0] : List Nat).count i)
    ∧ (pipeCommands [stageBoom] [0, 0, 0] ≠ none ↔
        ∃ st ∈ [stageBoom], ∃ b, st.stderrRead = some b ∧ b ≠ "") :=
  ⟨rfl, by decide,
    pipeCommands_fails_iff_nonempty_stderr [stageBoom] [0, 0, 0] rfl (by decide)⟩

/-- C1 counterexample: a single-stage pipeline whose wait fails while its
stderr is empty; PipeCommands returns nil although the claim requires a
non-nil error whenever some stage's wait failed. -/
theorem pipeCommands_wait_failure_ignored :
    stageWaitFail.waitOk = false
    ∧ stageWaitFail.stderrRead = some ""
    ∧ pipeCommands [stageWaitFail] [0, 0, 0] = none :=
  ⟨rfl, rfl, rfl⟩

/-- C2, corrected: when some stage produced non-empty stderr, PipeCommands
returns the newline-joined concatenation of exactly the non-empty stderr
blocks, each verbatim and exactly once, in the order the concurrent stage
units performed their appends; that order is a permutation of the stage
order but need not equal it. -/
theorem pipeCommands_aggregate_perm (stages : List Stage) (sched : List Nat)
    (hwire : firstWireFailure stages = none)
    (hsched : ∀ i ∈ List.range stages.length, 3 ≤ sched.count i)
    (hne : stageOrderedErrors stages ≠ []) :
    ∃ errs : List String,
      pipeCommands stages sched = some (PipeErr.aggregate (String.intercalate "\n" errs))
      ∧ errs.Perm (stageOrderedErrors stages) := by
  have hperm := pipeFinalErrors_perm stages sched hwire hsched
  refine ⟨pipeFinalErrors stages sched, ?_, hperm⟩
  have hpos : 0 < (pipeFinalErrors stages sched).length := by
    rw [List.length_pos]
    intro h0
    rw [h0] at hperm
    exact hne hperm.symm.eq_nil
  simp [pipeCommands, hwire, hpos]

/-- Witness for C2's theorem: the one-stage pipeline with stderr boom. -/
theorem pipeCommands_aggregate_perm_witness :
    firstWireFailure [stageBoom] = none
    ∧ stageOrderedErrors [stageBoom] ≠ []
    ∧ ∃ errs : List String,
        pipeCommands [stageBoom] [0, 0, 0]
          = some (PipeErr.aggregate (String.intercalate "\n" errs))
        ∧ errs.Perm (stageOrderedErrors [stageBoom]) :=
  ⟨rfl, by decide,
    pipeCommands_aggregate_perm [stageBoom] [0, 0, 0] rfl (by decide) (by decide)⟩

/-- C2 counterexample: with two stages producing stderr e0 and e1, the
schedule in which stage 1's unit runs first yields the aggregate message
e1 then e0, not the stage-position order e0 then e1 that the claim
requires regardless of completion order. -/
theorem pipeCommands_not_stage_ordered :
    pipeCommands [stageE0, stageE1] [1, 1, 1, 0, 0, 0]
        = some (PipeErr.aggregate "e1\ne0")
    ∧ String.intercalate "\n" (stageOrderedErrors [stageE0, stageE1]) = "e0\ne1"
    ∧ ("e1\ne0" : String) ≠ "e0\ne1" := by
  refine ⟨rfl, rfl, ?_⟩
  decide

/-- C3: the claim and the spec require every append of a stage's stderr
to the shared finalErrors container to be serialized by a mutex, but the
code performs a plain unsynchronized slice append inside each goroutine.
Refining that append into its read and write halves, the unserialized
interleaving read0 read1 write0 write1 loses stage 0's stderr, while the
serialized interleavings keep both blocks: the missing mutex is
observable as a lost update. -/
theorem unsynchronized_append_loses_stderr :
    raceRun ["e0", "e1"]
        [RaceStep.readShared 0, RaceStep.readShared 1,
          RaceStep.writeShared 0, RaceStep.writeShared 1] = ["e1"]
    ∧ raceRun ["e0", "e1"]
        [RaceStep.readShared 0, RaceStep.writeShared 0,
          RaceStep.readShared 1, RaceStep.writeShared 1] = ["e0", "e1"]
    ∧ raceRun ["e0", "e1"]
        [RaceStep.readShared 1, RaceStep.writeShared 1,
          RaceStep.readShared 0, RaceStep.writeShared 0] = ["e1", "e0"]
    ∧ ("e0" : String) ∉ raceRun ["e0", "e1"]
        [RaceStep.readShared 0, RaceStep.readShared 1,
          RaceStep.writeShared 0, RaceStep.writeShared 1] := by
  refine ⟨rfl, rfl, rfl, ?_⟩
  decide

/-- C4: a successful AppendLineToFile leaves the file with exactly the
contents the claim states: an empty or absent file becomes line plus a
newline; a file whose last byte is not a newline gets a separating
newline before line plus a newline; a file already ending in a newline
gets line plus a newline appended directly. -/
theorem appendLineToFile_contents (file : Option String) (line : String) :
    (file.getD "" = "" → appendLineToFile file line = line ++ "\n")
    ∧ (∀ c, file = some c → c ≠ "" → c.back ≠ '\n' →
        appendLineToFile file line = c ++ "\n" ++ line ++ "\n")
    ∧ (∀ c, file = some c → c ≠ "" → c.back = '\n' →
        appendLineToFile file line = c ++ line ++ "\n") := by
  refine ⟨?_, ?_, ?_⟩
  · intro h
    simp [appendLineToFile, h, String.length_empty, String.empty_append]
  · intro c hc hne hnb
    subst hc
    have hpos : 0 < c.length := (string_pos_iff_ne c).mpr hne
    simp only [appendLineToFile, Option.getD_some, if_pos hpos, if_neg hnb]
    simp [String.append_assoc]
  · intro c hc hne hb
    subst hc
    have hpos : 0 < c.length := (string_pos_iff_ne c).mpr hne
    simp only [appendLineToFile, Option.getD_some, if_pos hpos, if_pos hb]
    simp [String.append_assoc]

/-- Witness for C4's theorem at the three concrete file states. -/
theorem appendLineToFile_contents_witness :
    ("abc" : String) ≠ "" ∧ ("abc" : String).back ≠ '\n'
    ∧ appendLineToFile (some "abc") "line" = "abc" ++ "\n" ++ "line" ++ "\n"
    ∧ ("abc\n" : String) ≠ "" ∧ ("abc\n" : String).back = '\n'
    ∧ appendLineToFile (some "abc\n") "line" = "abc\n" ++ "line" ++ "\n"
    ∧ appendLineToFile none "line" = "line" ++ "\n" :=
  ⟨by decide, by decide,
    (appendLineToFile_contents (some "abc") "line").2.1 "abc" rfl (by decide) (by decide),
    by decide, by decide,
    (appendLineToFile_contents (some "abc\n") "line").2.2 "abc\n" rfl (by decide) (by decide),
    (appendLineToFile_contents none "line").1 rfl⟩

/-- C5, corrected: PipeCommands performs no validation of the pipeline
length; an empty command sequence is not rejected but processed like any
other, emitting the log record for the empty pipeline and returning nil. -/
theorem pipeCommands_empty_not_rejected (sched : List Nat) :
    pipeCommands ([] : List Stage) sched = none
    ∧ pipeTrace ([] : List Stage) sched = [Ev.log "" true] := by
  have hi : String.intercalate " | " ([] : List String) = "" := rfl
  have ht : pipeTrace ([] : List Stage) sched = [Ev.log "" true] := by
    simp [pipeTrace, firstWireFailure, pipelineLogStr, runSched_nil_pend, hi]
  refine ⟨?_, ht⟩
  simp [pipeCommands, firstWireFailure, pipeFinalErrors, ht, appendAt]

/-- C5 counterexample: the empty pipeline is processed, not rejected:
PipeCommands emits its log record and returns nil instead of failing the
claimed length validation. -/
theorem pipeCommands_no_length_validation :
    pipeCommands ([] : List Stage) [] = none
    ∧ pipeTrace ([] : List Stage) [] = [Ev.log "" true] :=
  ⟨rfl, rfl⟩

/-- C6: for a pipeline of n at least 2 stages, the wiring loop connects
the stdout of each stage i with i+1 < n to the stdin of stage i+1, leaves
the first stage's stdin and the last stage's stdout inherited, and in any
run whose StdoutPipe calls succeed all wire events occur in a trace
segment strictly before the segment holding every stage start. -/
theorem pipeline_wiring_spec (n : Nat) (hn : 2 ≤ n) :
    (wirePipeline n).stdin.get? 0 = some StdinSrc.inherited
    ∧ (wirePipeline n).stdout.get? (n - 1) = some StdoutDst.inherited
    ∧ (∀ i, i + 1 < n →
        (wirePipeline n).stdout.get? i = some (StdoutDst.pipeToStdinOf (i + 1))
        ∧ (wirePipeline n).stdin.get? (i + 1) = some (StdinSrc.pipeFromStdoutOf i))
    ∧ (∀ (stages : List Stage) (sched : List Nat),
        stages.length = n →
        firstWireFailure stages = none →
        ∃ pre suf, pipeTrace stages sched = pre ++ suf
          ∧ (∀ e ∈ pre, ∀ i, e ≠ Ev.start i)
          ∧ (∀ e ∈ suf, ∀ a b, e ≠ Ev.wire a b)
          ∧ ∀ j, j + 1 < n → Ev.wire j (j + 1) ∈ pre) := by
  have hn1 : n - 1 < n := by omega
  refine ⟨?_, ?_, ?_, ?_⟩
  · rw [wirePipeline_eq_fold, wireFold_stdin_get n (n - 1) hn1 0]
    have h0 : ¬(1 ≤ 0 ∧ 0 ≤ n - 1) := by omega
    have hlt : 0 < n := by omega
    simp [h0, hlt]
  · rw [wirePipeline_eq_fold, wireFold_stdout_get n (n - 1) hn1 (n - 1)]
    have h0 : ¬(n - 1 < n - 1) := by omega
    simp [h0, hn1]
  · intro i hi
    constructor
    · rw [wirePipeline_eq_fold, wireFold_stdout_get n (n - 1) hn1 i]
      have h1 : i < n := by omega
      have h2 : i < n - 1 := by omega
      simp [h1, h2]
    · rw [wirePipeline_eq_fold, wireFold_stdin_get n (n - 1) hn1 (i + 1)]
      have h1 : i + 1 < n := hi
      have h2 : 1 ≤ i + 1 ∧ i + 1 ≤ n - 1 := by omega
      simp [h1, h2]
  · intro stages sched hlen hwire
    refine ⟨Ev.log (pipelineLogStr stages) true ::
        (List.range (stages.length - 1)).map (fun j => Ev.wire j (j + 1)),
      runSched ((List.range stages.length).map unitEvents) sched, ?_, ?_, ?_, ?_⟩
    · simp [pipeTrace, hwire]
    · intro e he i
      rcases List.mem_cons.mp he with heq | hw
      · subst heq
        intro h
        cases h
      · obtain ⟨j, _, heq⟩ := List.mem_map.mp hw
        subst heq
        intro h
        cases h
    · intro e he a b
      obtain ⟨l, hl, hel⟩ := runSched_mem sched _ e he
      obtain ⟨i, _, heq⟩ := List.mem_map.mp hl
      subst heq
      simp only [unitEvents, List.mem_cons, List.mem_singleton] at hel
      rcases hel with heq | heq | heq
      · subst heq; intro h; cases h
      · subst heq; intro h; cases h
      · rcases heq with heq | hfalse
        · subst heq; intro h; cases h
        · cases hfalse
    · intro j hj
      apply List.mem_cons_of_mem
      apply List.mem_map.mpr
      exact ⟨j, List.mem_range.mpr (by omega), rfl⟩

/-- Witness for C6's theorem at the two-stage pipeline. -/
theorem pipeline_wiring_spec_witness :
    (2 : Nat) ≤ 2
    ∧ (wirePipeline 2).stdin.get? 0 = some StdinSrc.inherited
    ∧ (wirePipeline 2).stdout.get? 1 = some StdoutDst.inherited
    ∧ (wirePipeline 2).stdout.get? 0 = some (StdoutDst.pipeToStdinOf 1)
    ∧ (wirePipeline 2).stdin.get? 1 = some (StdinSrc.pipeFromStdoutOf 0) :=
  ⟨by decide, (pipeline_wiring_spec 2 (by decide)).1,
    (pipeline_wiring_spec 2 (by decide)).2.1,
    ((pipeline_wiring_spec 2 (by decide)).2.2.1 0 (by decide)).1,
    ((pipeline_wiring_spec 2 (by decide)).2.2.1 0 (by decide)).2⟩

/-- C7: every run of PipeCommands, including runs that fail later, emits
exactly one log record, as the first event of the trace and hence before
any stage start; it carries the stage display strings joined by the pipe
separator and the compound command-line flag set to true. -/
theorem pipe_log_emitted_first (stages : List Stage) (sched : List Nat) :
    ∃ rest, pipeTrace stages sched
        = Ev.log (String.intercalate " | " (stages.map Stage.displayStr)) true :: rest
      ∧ ∀ e ∈ rest, ∀ s b, e ≠ Ev.log s b := by
  cases hw : firstWireFailure stages with
  | some i =>
    refine ⟨(List.range i).map (fun j => Ev.wire j (j + 1)), ?_, ?_⟩
    · simp [pipeTrace, hw, pipelineLogStr]
    · intro e he s b
      obtain ⟨j, _, heq⟩ := List.mem_map.mp he
      subst heq
      intro h
      cases h
  | none =>
    refine ⟨(List.range (stages.length - 1)).map (fun j => Ev.wire j (j + 1))
        ++ runSched ((List.range stages.length).map unitEvents) sched, ?_, ?_⟩
    · simp [pipeTrace, hw, pipelineLogStr]
    · intro e he s b
      rcases List.mem_append.mp he with hw2 | hu
      · obtain ⟨j, _, heq⟩ := List.mem_map.mp hw2
        subst heq
        intro h
        cases h
      · obtain ⟨l, hl, hel⟩ := runSched_mem sched _ e hu
        obtain ⟨i, _, heq⟩ := List.mem_map.mp hl
        subst heq
        simp only [unitEvents, List.mem_cons, List.mem_singleton] at hel
        rcases hel with heq | heq | heq
        · subst heq; intro h; cases h
        · subst heq; intro h; cases h
        · rcases heq with heq | hfalse
          · subst heq; intro h; cases h
          · cases hfalse

/-- C8: on a successful clipboard read PasteFromClipboard returns the raw
text with each carriage-return-linefeed pair replaced, left to right and
non-overlapping, by a linefeed; on a read error it returns the empty
string and propagates the error; the concrete input a-CRLF-b yields
a-LF-b, and text without a carriage return is returned unchanged. -/
theorem pasteFromClipboard_normalizes (cfg : OSUserConfig)
    (run : String → String → String × Option String)
    (native : String × Option String) :
    (∀ raw, rawClipboardRead cfg run native = (raw, none) →
        pasteFromClipboard cfg run native = (replaceCRLFStr raw, none))
    ∧ (∀ s e, rawClipboardRead cfg run native = (s, some e) →
        pasteFromClipboard cfg run native = ("", some e))
    ∧ replaceCRLFStr "a\r\nb" = "a\nb"
    ∧ ∀ s : String, '\r' ∉ s.data → replaceCRLFStr s = s := by
  refine ⟨?_, ?_, rfl, ?_⟩
  · intro raw h
    simp [pasteFromClipboard, h, normalizeResult]
  · intro s e h
    simp [pasteFromClipboard, h, normalizeResult]
  · intro s hs
    obtain ⟨l⟩ := s
    simp only [replaceCRLFStr, String.ext_iff]
    exact replaceCRLF_no_cr l hs

/-- Witness for C8's theorem: a native read returning a-CRLF-b is
normalized to a-LF-b, and a failing read propagates its error. -/
theorem pasteFromClipboard_normalizes_witness :
    rawClipboardRead cfgNativeRead shellRunStub ("a\r\nb", none) = ("a\r\nb", none)
    ∧ pasteFromClipboard cfgNativeRead shellRunStub ("a\r\nb", none) = ("a\nb", none)
    ∧ rawClipboardRead cfgNativeRead shellRunStub ("", some "exec format error")
        = ("", some "exec format error")
    ∧ pasteFromClipboard cfgNativeRead shellRunStub ("", some "exec format error")
        = ("", some "exec format error") := by
  refine ⟨rfl, ?_, rfl, ?_⟩
  · have h := (pasteFromClipboard_normalizes cfgNativeRead shellRunStub
      ("a\r\nb", none)).1 "a\r\nb" rfl
    rw [h]
    rfl
  · exact (pasteFromClipboard_normalizes cfgNativeRead shellRunStub
      ("", some "exec format error")).2.1 "" "exec format error" rfl

/-- C9: FileExists maps a stat failure satisfying os.IsNotExist to false
with a nil error, any other stat failure to false with that non-nil
error, and a successful stat to true with a nil error. -/
theorem fileExists_cases (statResult : Option GoError) :
    (∀ err, statResult = some err → err.notExistErr = true →
        fileExists statResult = (false, none))
    ∧ (∀ err, statResult = some err → err.notExistErr = false →
        fileExists statResult = (false, some err) ∧ (fileExists statResult).2 ≠ none)
    ∧ (statResult = none → fileExists statResult = (true, none)) := by
  refine ⟨?_, ?_, ?_⟩
  · rintro err rfl h
    simp [fileExists, h]
  · rintro err rfl h
    constructor <;> simp [fileExists, h]
  · rintro rfl
    rfl

/-- Witness for C9's theorem at a not-exist error, a permission error and
a successful stat. -/
theorem fileExists_cases_witness :
    fileExists (some { msg := "no such file or directory", notExistErr := true })
        = (false, none)
    ∧ fileExists (some { msg := "permission denied", notExistErr := false })
        = (false, some { msg := "permission denied", notExistErr := false })
    ∧ fileExists none = (true, none) :=
  ⟨(fileExists_cases _).1 _ rfl rfl,
    ((fileExists_cases _).2.1 _ rfl rfl).1,
    (fileExists_cases _).2.2 rfl⟩

/-- C10: PasteFromClipboard selects its source by whether
CopyToClipboardCmd is non-empty, not ReadFromClipboardCmd: with an empty
CopyToClipboardCmd the OS-native clipboard is read even when
ReadFromClipboardCmd is configured, and with a non-empty
CopyToClipboardCmd the configured ReadFromClipboardCmd is run through the
shell even when it is itself empty. -/
theorem pasteFromClipboard_branch_selector (cfg : OSUserConfig)
    (run : String → String → String × Option String)
    (native : String × Option String) :
    (cfg.copyToClipboardCmd = "" →
        pasteFromClipboard cfg run native = normalizeResult native)
    ∧ (cfg.copyToClipboardCmd ≠ "" →
        pasteFromClipboard cfg run native
          = normalizeResult (run cfg.readFromClipboardCmd cfg.shellFunctionsFile)) := by
  constructor
  · intro h
    simp [pasteFromClipboard, rawClipboardRead, h]
  · intro h
    simp [pasteFromClipboard, rawClipboardRead, h]

/-- Witness for C10's theorem: with an empty CopyToClipboardCmd but a
configured ReadFromClipboardCmd the native read is used, and with a
non-empty CopyToClipboardCmd but an empty ReadFromClipboardCmd the shell
runner is invoked on the empty command string. -/
theorem pasteFromClipboard_branch_selector_witness :
    cfgNativeRead.copyToClipboardCmd = ""
    ∧ cfgNativeRead.readFromClipboardCmd = "xclip -o"
    ∧ pasteFromClipboard cfgNativeRead shellRunStub ("native text", none)
        = normalizeResult ("native text", none)
    ∧ cfgShellRead.copyToClipboardCmd ≠ ""
    ∧ cfgShellRead.readFromClipboardCmd = ""
    ∧ pasteFromClipboard cfgShellRead shellRunStub ("native text", none)
        = normalizeResult (shellRunStub cfgShellRead.readFromClipboardCmd
            cfgShellRead.shellFunctionsFile) :=
  ⟨rfl, rfl,
    (pasteFromClipboard_branch_selector cfgNativeRead shellRunStub ("native text", none)).1 rfl,
    by decide, rfl,
    (pasteFromClipboard_branch_selector cfgShellRead shellRunStub
      ("native text", none)).2 (by decide)⟩

end LazygitOs
